import Mathlib

/-!
Shallow embedding of the presence & notification hub of
`src/server/services/websocket.ts` (GymAIEngine_Chatbot).

The hub keeps two module-level JavaScript `Map`s:
  * `users   : Map<string, User>`    -- per-user presence entries
  * `clients : Map<string, string>`  -- userId -> socketId

A JavaScript `Map` preserves insertion order, `set` on an existing key
replaces the value in place, and `delete` removes the pair.  We model a
`Map` as an insertion-ordered association list with exactly those
operations, and the hub operations as pure functions from state (plus the
explicit inputs that the real code gets from the environment: the current
time, the result of the training-records fetch) to state and a list of
emitted socket events.
-/

namespace GymHub

/-- `Map.get`: the binding for the key, if any. -/
def mapGet : List (String × α) → String → Option α
  | [], _ => none
  | p :: m, k => if p.1 = k then some p.2 else mapGet m k

/-- `Map.set`: replace the value in place if the key is bound (keeping the
original position, as a JS `Map` does), otherwise append at the end. -/
def mapSet : List (String × α) → String → α → List (String × α)
  | [], k, v => [(k, v)]
  | p :: m, k, v => if p.1 = k then (k, v) :: m else p :: mapSet m k v

/-- `Map.delete`: remove the binding of the key. -/
def mapDel (m : List (String × α)) (k : String) : List (String × α) :=
  m.filter (fun p => p.1 ≠ k)

/-- Presence status, the `'online' | 'away' | 'offline'` union of the source. -/
inductive Status
  | online
  | away
  | offline
deriving DecidableEq

/-- The `{ level, progress }` training-level summary.  `progress` is the
result of JavaScript `Math.round`, an integer. -/
structure TrainingLevel where
  level : String
  progress : ℤ
deriving DecidableEq

/-- One row fetched from the `userTraining` table; the hub only inspects
its `status` column. -/
structure TrainingRecord where
  status : String
deriving DecidableEq

/-- The `User` interface of the source.  `lastSeen` timestamps are opaque
to the hub's logic; we model them as natural numbers supplied by each
event. -/
structure User where
  id : String
  name : String
  avatar : Option String
  status : Status
  lastSeen : Option ℕ
  socketId : String
  trainingLevel : Option TrainingLevel
deriving DecidableEq

/-- A `User` with the `socketId` field removed, as produced by the
`({ socketId, ...user }) => user` destructuring in `broadcastPresence`. -/
structure PublicUser where
  id : String
  name : String
  avatar : Option String
  status : Status
  lastSeen : Option ℕ
  trainingLevel : Option TrainingLevel
deriving DecidableEq

/-- The rest-destructuring `({ socketId, ...user }) => user`. -/
def stripSocketId (u : User) : PublicUser :=
  { id := u.id, name := u.name, avatar := u.avatar, status := u.status,
    lastSeen := u.lastSeen, trainingLevel := u.trainingLevel }

/-- The two module-level maps. -/
structure HubState where
  users : List (String × User)
  clients : List (String × String)
deriving DecidableEq

/-- Both maps start empty. -/
def initState : HubState := ⟨[], []⟩

/-- An outbound socket emission.  `onlineUsersUpdate` is `io.emit` to all
clients; the other two are `io.to(<socketId>).emit` to one room. -/
inductive Emit
  | onlineUsersUpdate (users : List PublicUser)
  | trainingLevel (target : String) (tl : TrainingLevel)
  | notify (target : String) (message : String)
deriving DecidableEq

/-- The `ONLINE_USERS_UPDATE` payload of `broadcastPresence`:
`Array.from(users.values()).map(({ socketId, ...user }) => user)`. -/
def presencePayload (s : HubState) : List PublicUser :=
  s.users.map (fun p => stripSocketId p.2)

/-- The default display name `` `User ${userId.slice(0, 4)}` ``. -/
def defaultName (userId : String) : String :=
  "User " ++ userId.take 4

/-- `wsInterface.registerUser`. -/
def registerUser (s : HubState) (userId : String) (now : ℕ) :
    HubState × List Emit :=
  let u : User :=
    { id := userId, name := defaultName userId, avatar := none,
      status := .online, lastSeen := some now,
      socketId := (mapGet s.clients userId).getD "", trainingLevel := none }
  let s' : HubState := { s with users := mapSet s.users userId u }
  (s', [.onlineUsersUpdate (presencePayload s')])

/-- `wsInterface.unregisterUser`. -/
def unregisterUser (s : HubState) (userId : String) (now : ℕ) :
    HubState × List Emit :=
  let users' :=
    match mapGet s.users userId with
    | some u => mapSet s.users userId { u with status := .offline, lastSeen := some now }
    | none => s.users
  let s' : HubState := { users := users', clients := mapDel s.clients userId }
  (s', [.onlineUsersUpdate (presencePayload s')])

/-- Round a rational to an integer, ties to even (the IEEE 754
round-to-nearest-even rule applied to a significand). -/
def roundEven (x : ℚ) : ℤ :=
  if Int.fract x < 1/2 then ⌊x⌋
  else if 1/2 < Int.fract x then ⌊x⌋ + 1
  else if Even ⌊x⌋ then ⌊x⌋ else ⌊x⌋ + 1

/-- IEEE 754 binary64 rounding (round to nearest, ties to even) of a
nonnegative rational: the significand is `q` scaled to the rounding
position `2 ^ (e - 52)` (clamped at the subnormal position `2 ^ (-1074)`),
rounded to an integer with ties to even.  All values arising in the hub
are far below the overflow threshold, so no infinity case is needed; the
hub never produces negative inputs. -/
def fl (q : ℚ) : ℚ :=
  if q = 0 then 0
  else
    (roundEven (q / 2 ^ (max (Int.log 2 q) (-1022) - 52)) : ℚ) *
      2 ^ (max (Int.log 2 q) (-1022) - 52)

/-- The pure core of `broadcastTrainingLevel` (lines 46-64): progress and
level computed from the fetched modules.  JavaScript numbers are IEEE
binary64, so the counts, the quotient and the product are each rounded
with `fl`; `Math.round` is specified by ECMA-262 as the integral Number
nearest to the argument's exact value with ties toward +∞, i.e. `round`
of the exact rational the double denotes (it is *not*
`floor(fl(x + 0.5))`). -/
def computeTrainingLevel (completedModules : List TrainingRecord) : TrainingLevel :=
  let totalProgress : ℚ :=
    if completedModules.length > 0 then
      fl (fl (fl (((completedModules.filter (fun m => m.status = "completed")).length : ℚ)) /
        fl ((completedModules.length : ℚ))) * 100)
    else 0
  let level : String :=
    if totalProgress ≥ 80 then "Expert"
    else if totalProgress ≥ 50 then "Intermediate"
    else "Beginner"
  { level := level, progress := round totalProgress }

/-- `broadcastTrainingLevel`.  The whole body is wrapped in `try/catch`;
the only throwing step is the awaited fetch, modelled by the `fetch`
argument.  On failure nothing after the fetch runs: state unchanged,
nothing emitted, no error propagated. -/
def broadcastTrainingLevel (s : HubState) (userId : String)
    (fetch : Except Unit (List TrainingRecord)) : HubState × List Emit :=
  match fetch with
  | .error _ => (s, [])
  | .ok completedModules =>
    let tl := computeTrainingLevel completedModules
    let s' : HubState :=
      match mapGet s.users userId with
      | some user => { s with users := mapSet s.users userId { user with trainingLevel := some tl } }
      | none => s
    (s', [.trainingLevel ((mapGet s.clients userId).getD "") tl])

/-- `wsInterface.broadcast(userIds, message)`: a `forEach` over the input
list, emitting to the looked-up socket id when there is one. -/
def broadcast (s : HubState) (userIds : List String) (message : String) : List Emit :=
  match userIds with
  | [] => []
  | userId :: rest =>
    (match mapGet s.clients userId with
     | some socketId => [.notify socketId message]
     | none => []) ++ broadcast s rest message

/-- `wsInterface.getActiveUsers`. -/
def getActiveUsers (s : HubState) : List String :=
  ((s.users.map Prod.snd).filter (fun u => u.status = .online)).map (fun u => u.id)

/-- The `connection` handler head: a missing/empty `userId` query
parameter disconnects the socket immediately, otherwise
`clients.set(userId, socket.id)`. -/
def onConnect (s : HubState) (userId socketId : String) : HubState :=
  if userId = "" then s
  else { s with clients := mapSet s.clients userId socketId }

/-- The `presence:join` handler.  `name` defaults to the synthesized
label; an existing entry is updated in place, otherwise
`registerUser` runs (which ignores the supplied name).  Then
`broadcastTrainingLevel` and a final `broadcastPresence`. -/
def onJoin (s : HubState) (uid : String) (suppliedName : Option String)
    (fetch : Except Unit (List TrainingRecord)) (now : ℕ) : HubState × List Emit :=
  let name := suppliedName.getD (defaultName uid)
  let step1 : HubState × List Emit :=
    match mapGet s.users uid with
    | some user =>
      ({ s with users := mapSet s.users uid { user with status := .online, name := name, lastSeen := some now } }, [])
    | none => registerUser s uid now
  let step2 := broadcastTrainingLevel step1.1 uid fetch
  (step2.1, step1.2 ++ step2.2 ++ [.onlineUsersUpdate (presencePayload step2.1)])

/-- The `presence:status` handler: update status and last-seen if the
user has an entry, else no-op. -/
def onStatus (s : HubState) (userId : String) (status : Status) (now : ℕ) :
    HubState × List Emit :=
  match mapGet s.users userId with
  | some user =>
    let s' : HubState :=
      { s with users := mapSet s.users userId { user with status := status, lastSeen := some now } }
    (s', [.onlineUsersUpdate (presencePayload s')])
  | none => (s, [])

/-- The `disconnect` handler: `unregisterUser` for the socket's user. -/
def onDisconnect (s : HubState) (userId : String) (now : ℕ) : HubState × List Emit :=
  unregisterUser s userId now

/-- The `error` handler: unregister only if the erroring socket is still
the user's recorded connection. -/
def onTransportError (s : HubState) (userId socketId : String) (now : ℕ) :
    HubState × List Emit :=
  if mapGet s.clients userId = some socketId then
    unregisterUser s userId now
  else (s, [])

/-- One inbound lifecycle event, carrying the environment inputs the real
handlers read (socket ids, payloads, fetch results, clock). -/
inductive Event
  | connect (userId socketId : String)
  | join (uid : String) (suppliedName : Option String)
      (fetch : Except Unit (List TrainingRecord)) (now : ℕ)
  | status (userId : String) (st : Status) (now : ℕ)
  | disconnect (userId : String) (now : ℕ)
  | transportError (userId socketId : String) (now : ℕ)

/-- Apply one event to the hub state (emissions discarded). -/
def step (s : HubState) (e : Event) : HubState :=
  match e with
  | .connect userId socketId => onConnect s userId socketId
  | .join uid name fetch now => (onJoin s uid name fetch now).1
  | .status userId st now => (onStatus s userId st now).1
  | .disconnect userId now => (onDisconnect s userId now).1
  | .transportError userId socketId now => (onTransportError s userId socketId now).1

/-- Run an event sequence from the empty state. -/
def run (es : List Event) : HubState :=
  es.foldl step initState

/-! ## Specification-side definitions

These follow the wording of the specification's claims, for comparison
with the definitions above (which are translated from the source). -/

/-- Number of fetched records whose `status` is `"completed"`. -/
def countCompleted (modules : List TrainingRecord) : ℕ :=
  (modules.filter (fun m => m.status = "completed")).length

/-- The stored progress as the claim words it, over plain naturals: the
*exact* percentage `completed / total * 100` rounded half up to the
nearest integer, `0` when there are no records.  `(200 * c + t) / (2 * t)`
is exactly `⌊100 * c / t + 1 / 2⌋`. -/
def specProgress (c t : ℕ) : ℤ :=
  if t = 0 then 0 else (200 * c + t : ℤ) / (2 * t)

/-- Level label obtained, as the claim states it, by applying the 80 / 50
thresholds to the *rounded stored* percentage. -/
def specLevelClaimed (c t : ℕ) : String :=
  if specProgress c t ≥ 80 then "Expert"
  else if specProgress c t ≥ 50 then "Intermediate"
  else "Beginner"

/-- The double value of `(completed / total) * 100` as the program
computes it, over the completed and total counts. -/
def dblPercent (c t : ℕ) : ℚ :=
  fl (fl (fl (c : ℚ) / fl (t : ℚ)) * 100)

/-- The stored progress as the amended claim words it: `Math.round` of
the double percentage, `0` when there are no records. -/
def specProgressDbl (c t : ℕ) : ℤ :=
  if t = 0 then 0 else round (dblPercent c t)

/-- The level label as the amended claim words it: the 80 / 50 thresholds
applied to the unrounded double percentage. -/
def specLevelDbl (c t : ℕ) : String :=
  if t = 0 then "Beginner"
  else if dblPercent c t ≥ 80 then "Expert"
  else if dblPercent c t ≥ 50 then "Intermediate"
  else "Beginner"

/-- The summary of the amended claim, over the completed and total
counts. -/
def specTrainingLevelDbl (c t : ℕ) : TrainingLevel :=
  ⟨specLevelDbl c t, specProgressDbl c t⟩

/-- A fetch result with `c` completed records followed by `nc`
not-completed ones (total `c + nc`). -/
def recsCase (c nc : ℕ) : List TrainingRecord :=
  List.replicate c ⟨"completed"⟩ ++ List.replicate nc ⟨"in_progress"⟩

/-- Specification-side view of the lifecycle, following the claim's
wording: per user, the currently recorded connection handle and whether
the most recent lifecycle event set the user online (join, or a status
change to online) with no subsequent disconnect, status change away from
online, or error on the current handle.  Status changes act
unconditionally here; the code additionally requires the user to have a
presence entry. -/
structure SpecClaimedState where
  handles : String → Option String
  active : String → Bool

/-- Spec-side step for the claimed characterization. -/
def specStepClaimed (st : SpecClaimedState) (e : Event) : SpecClaimedState :=
  match e with
  | .connect uid sid =>
    if uid = "" then st
    else { st with handles := fun x => if x = uid then some sid else st.handles x }
  | .join uid _ _ _ =>
    { st with active := fun x => if x = uid then true else st.active x }
  | .status uid s _ =>
    if s = .online then { st with active := fun x => if x = uid then true else st.active x }
    else { st with active := fun x => if x = uid then false else st.active x }
  | .disconnect uid _ =>
    { handles := fun x => if x = uid then none else st.handles x,
      active := fun x => if x = uid then false else st.active x }
  | .transportError uid sid _ =>
    if st.handles uid = some sid then
      { handles := fun x => if x = uid then none else st.handles x,
        active := fun x => if x = uid then false else st.active x }
    else st

/-- Run the claimed spec view from the empty state. -/
def specRunClaimed (es : List Event) : SpecClaimedState :=
  es.foldl specStepClaimed ⟨fun _ => none, fun _ => false⟩

/-- Spec-side view amended by the counterexample: a status-change event
only takes effect for a user that already has a presence entry (tracked
by `entries`: set by join, never cleared). -/
structure SpecState where
  handles : String → Option String
  entries : String → Bool
  active : String → Bool

/-- Spec-side step for the amended characterization. -/
def specStep (st : SpecState) (e : Event) : SpecState :=
  match e with
  | .connect uid sid =>
    if uid = "" then st
    else { st with handles := fun x => if x = uid then some sid else st.handles x }
  | .join uid _ _ _ =>
    { st with entries := fun x => if x = uid then true else st.entries x,
              active := fun x => if x = uid then true else st.active x }
  | .status uid s _ =>
    if st.entries uid then
      if s = .online then { st with active := fun x => if x = uid then true else st.active x }
      else { st with active := fun x => if x = uid then false else st.active x }
    else st
  | .disconnect uid _ =>
    { st with handles := fun x => if x = uid then none else st.handles x,
              active := fun x => if x = uid then false else st.active x }
  | .transportError uid sid _ =>
    if st.handles uid = some sid then
      { st with handles := fun x => if x = uid then none else st.handles x,
                active := fun x => if x = uid then false else st.active x }
    else st

/-- Run the amended spec view from the empty state. -/
def specRun (es : List Event) : SpecState :=
  es.foldl specStep ⟨fun _ => none, fun _ => false, fun _ => false⟩

/-! ## Helper definitions for stating and proving the theorems -/

/-- The entry a `presence:join` for `uid` leaves in the map before the
training-level update: an existing entry updated in place, otherwise the
entry `registerUser` creates (which ignores the supplied name). -/
def joinBase (s : HubState) (uid name : String) (now : ℕ) : User :=
  match mapGet s.users uid with
  | some v =>
    { v with status := .online, name := name, lastSeen := some now }
  | none =>
    { id := uid, name := defaultName uid, avatar := none, status := .online,
      lastSeen := some now, socketId := (mapGet s.clients uid).getD "",
      trainingLevel := none }

/-- The effect of the training-level step on the joined user's entry:
on a successful fetch the summary is recomputed, on a failed fetch the
entry is untouched. -/
def withFetch (f : Except Unit (List TrainingRecord)) (v : User) : User :=
  match f with
  | .ok modules => { v with trainingLevel := some (computeTrainingLevel modules) }
  | .error _ => v

/-- Structural well-formedness of the users map, maintained by every
operation: keys are distinct and each entry's `id` field is its key. -/
def KeysOK (s : HubState) : Prop :=
  (s.users.map Prod.fst).Nodup ∧ ∀ p ∈ s.users, p.2.id = p.1

/-- Simulation invariant between the code state and the amended
spec-side view. -/
def Inv (s : HubState) (st : SpecState) : Prop :=
  KeysOK s ∧
  (∀ u, mapGet s.clients u = st.handles u) ∧
  (∀ u, (mapGet s.users u).isSome = st.entries u) ∧
  (∀ u, ((mapGet s.users u).map User.status = some .online) ↔ st.active u = true)

/-! ## Concrete scenario states used by witnesses and counterexamples -/

/-- User `u1` connects on socket `s1`, joins, then reconnects on socket
`s2` (so `s1` is a superseded handle). -/
def demoReconnected : HubState :=
  run [.connect "u1" "s1", .join "u1" none (.error ()) 0, .connect "u1" "s2"]

/-- A presence entry carrying a custom name, an avatar and a stored
training summary. -/
def demoRichUser : User :=
  { id := "u1", name := "Uma", avatar := some "a.png", status := .away,
    lastSeen := some 3, socketId := "s1",
    trainingLevel := some ⟨"Expert", 100⟩ }

/-- A state whose `u1` entry is `demoRichUser`. -/
def demoRichEntry : HubState :=
  { users := [("u1", demoRichUser)], clients := [("u1", "s1")] }

/-! ## Map lemmas -/

theorem mapGet_mapSet (m : List (String × α)) (k k' : String) (v : α) :
    mapGet (mapSet m k v) k' = if k = k' then some v else mapGet m k' := by
  induction m with
  | nil => by_cases h : k = k' <;> simp [mapSet, mapGet, h]
  | cons p m ih =>
    by_cases hp : p.1 = k
    · by_cases h : k = k' <;> simp [mapSet, mapGet, hp, h]
    · by_cases h : p.1 = k'
      · have hkk : ¬k = k' := fun hk => hp (h.trans hk.symm)
        have hkk' : ¬k' = k := fun hk => hkk hk.symm
        simp [mapSet, mapGet, hp, h, hkk, hkk']
      · simp [mapSet, mapGet, hp, h, ih]

theorem mapGet_mapDel (m : List (String × α)) (k k' : String) :
    mapGet (mapDel m k) k' = if k = k' then none else mapGet m k' := by
  induction m with
  | nil => by_cases h : k = k' <;> simp [mapDel, mapGet, h]
  | cons p m ih =>
    by_cases hp : p.1 = k
    · simp only [mapDel, List.filter_cons] at ih ⊢
      by_cases h : k = k' <;> simp [mapGet, hp, h, ih] <;> simp [mapDel] at ih <;>
        simpa [h] using ih
    · simp only [mapDel, List.filter_cons] at ih ⊢
      by_cases h : p.1 = k'
      · subst h
        have hkk : ¬k = p.1 := fun hk => hp hk.symm
        simp [mapGet, hp, hkk]
      · simp [mapGet, hp, h]
        simp [mapDel] at ih
        simpa using ih

theorem mapSet_mapSet (m : List (String × α)) (k : String) (v w : α) :
    mapSet (mapSet m k v) k w = mapSet m k w := by
  induction m with
  | nil => simp [mapSet]
  | cons p m ih => by_cases hp : p.1 = k <;> simp [mapSet, hp, ih]

theorem mapDel_mapDel (m : List (String × α)) (k : String) :
    mapDel (mapDel m k) k = mapDel m k := by
  simp [mapDel, List.filter_filter]

theorem mem_of_mapGet_eq_some {m : List (String × α)} {k : String} {v : α}
    (h : mapGet m k = some v) : (k, v) ∈ m := by
  induction m with
  | nil => simp [mapGet] at h
  | cons p m ih =>
    by_cases hp : p.1 = k
    · simp [mapGet, hp] at h
      subst hp
      simp [← h]
    · simp [mapGet, hp] at h
      simp [ih h]

theorem mapGet_eq_some_iff_mem {m : List (String × α)}
    (hN : (m.map Prod.fst).Nodup) (k : String) (v : α) :
    mapGet m k = some v ↔ (k, v) ∈ m := by
  induction m with
  | nil => simp [mapGet]
  | cons p m ih =>
    simp only [List.map_cons, List.nodup_cons] at hN
    obtain ⟨hpm, hN'⟩ := hN
    by_cases hp : p.1 = k
    · subst hp
      simp only [mapGet, if_pos rfl, List.mem_cons]
      constructor
      · rintro h
        left
        cases p
        simpa using h.symm
      · rintro (h | h)
        · cases p
          simpa using congrArg Prod.snd h.symm
        · exact absurd (List.mem_map_of_mem Prod.fst h) hpm
    · simp only [mapGet, if_neg hp, List.mem_cons]
      rw [ih hN']
      constructor
      · exact fun h => Or.inr h
      · rintro (h | h)
        · exact absurd (congrArg Prod.fst h.symm) hp
        · exact h

theorem mem_keys_mapSet {m : List (String × α)} {k x : String} {v : α} :
    x ∈ (mapSet m k v).map Prod.fst ↔ x ∈ m.map Prod.fst ∨ x = k := by
  induction m with
  | nil => simp [mapSet]
  | cons p m ih =>
    by_cases hp : p.1 = k
    · subst hp
      simp [mapSet]
      tauto
    · simp [mapSet, hp, ih]
      tauto

theorem nodup_keys_mapSet {m : List (String × α)} {k : String} {v : α}
    (hN : (m.map Prod.fst).Nodup) : ((mapSet m k v).map Prod.fst).Nodup := by
  induction m with
  | nil => simp [mapSet]
  | cons p m ih =>
    simp only [List.map_cons, List.nodup_cons] at hN
    obtain ⟨hpm, hN'⟩ := hN
    by_cases hp : p.1 = k
    · subst hp
      simpa [mapSet] using And.intro hpm hN'
    · simp only [mapSet, if_neg hp, List.map_cons, List.nodup_cons]
      refine ⟨?_, ih hN'⟩
      rw [mem_keys_mapSet]
      rintro (h | h)
      · exact hpm h
      · exact hp h

theorem nodup_keys_mapDel {m : List (String × α)} {k : String}
    (hN : (m.map Prod.fst).Nodup) : ((mapDel m k).map Prod.fst).Nodup :=
  ((List.filter_sublist m).map Prod.fst).nodup hN

theorem forall_mapSet {m : List (String × α)} {k : String} {v : α}
    {P : String × α → Prop} (hI : ∀ p ∈ m, P p) (hv : P (k, v)) :
    ∀ p ∈ mapSet m k v, P p := by
  induction m with
  | nil => simpa [mapSet] using hv
  | cons p m ih =>
    by_cases hp : p.1 = k
    · simp only [mapSet, if_pos hp]
      rintro q hq
      rcases List.mem_cons.mp hq with h | h
      · exact h ▸ hv
      · exact hI q (List.mem_cons_of_mem _ h)
    · simp only [mapSet, if_neg hp]
      rintro q hq
      rcases List.mem_cons.mp hq with h | h
      · exact h ▸ hI p (List.mem_cons_self _ _)
      · exact ih (fun r hr => hI r (List.mem_cons_of_mem _ hr)) q h

theorem forall_mapDel {m : List (String × α)} {k : String}
    {P : String × α → Prop} (hI : ∀ p ∈ m, P p) :
    ∀ p ∈ mapDel m k, P p :=
  fun p hp => hI p (List.mem_of_mem_filter hp)

/-- `getActiveUsers` membership is exactly "the stored entry's status is
online", for well-formed states. -/
theorem mem_getActiveUsers (s : HubState) (hK : KeysOK s) (u : String) :
    u ∈ getActiveUsers s ↔ (mapGet s.users u).map User.status = some .online := by
  obtain ⟨hN, hI⟩ := hK
  simp only [getActiveUsers, List.mem_map, List.mem_filter]
  constructor
  · rintro ⟨v, ⟨hv, hst⟩, rfl⟩
    obtain ⟨p, hp, rfl⟩ := hv
    have hid : p.2.id = p.1 := hI p hp
    have : mapGet s.users p.2.id = some p.2 := by
      rw [hid, mapGet_eq_some_iff_mem hN]
      exact hp
    rw [this]
    simp only [Option.map_some']
    simpa using hst
  · intro h
    match hg : mapGet s.users u with
    | none => rw [hg] at h; simp at h
    | some v =>
      rw [hg] at h
      simp only [Option.map_some', Option.some.injEq] at h
      have hmem : (u, v) ∈ s.users := mem_of_mapGet_eq_some hg
      refine ⟨v, ⟨⟨(u, v), hmem, rfl⟩, by simpa using h⟩, ?_⟩
      exact hI (u, v) hmem

/-! ## Binary64 rounding lemmas and concrete evaluations -/

theorem roundEven_of_fract_lt_half (x : ℚ) (h : Int.fract x < 1/2) :
    roundEven x = ⌊x⌋ := by
  rw [roundEven, if_pos h]

theorem roundEven_of_half_lt_fract (x : ℚ) (h : 1/2 < Int.fract x) :
    roundEven x = ⌊x⌋ + 1 := by
  rw [roundEven, if_neg (by exact not_lt.mpr (le_of_lt h)), if_pos h]

theorem roundEven_intCast (m : ℤ) : roundEven (m : ℚ) = m := by
  rw [roundEven_of_fract_lt_half _ (by rw [Int.fract_intCast]; norm_num),
    Int.floor_intCast]

/-- `fl` at a positive value in the normal binade `[2^e, 2^(e+1))`. -/
theorem fl_eq (q : ℚ) (e : ℤ) (hq : 0 < q) (he : -1022 ≤ e)
    (h1 : (2 : ℚ) ^ e ≤ q) (h2 : q < (2 : ℚ) ^ (e + 1)) :
    fl q = (roundEven (q / 2 ^ (e - 52)) : ℚ) * 2 ^ (e - 52) := by
  have hlog : Int.log 2 q = e := by
    have hle : e ≤ Int.log 2 q := by
      rw [← Int.zpow_le_iff_le_log (by norm_num) hq]
      exact_mod_cast h1
    have hlt : Int.log 2 q < e + 1 := by
      rw [← Int.lt_zpow_iff_log_lt (by norm_num) hq]
      exact_mod_cast h2
    omega
  rw [fl, if_neg (ne_of_gt hq), hlog, max_eq_left he]

/-- A value that is an integer multiple of its own rounding position is
exactly representable: `fl` leaves it unchanged. -/
theorem fl_eq_self (q : ℚ) (e m : ℤ) (hq : 0 < q) (he : -1022 ≤ e)
    (h1 : (2 : ℚ) ^ e ≤ q) (h2 : q < (2 : ℚ) ^ (e + 1))
    (hm : q = (m : ℚ) * 2 ^ (e - 52)) :
    fl q = q := by
  rw [fl_eq q e hq he h1 h2]
  have hdiv : q / 2 ^ (e - 52) = (m : ℚ) := by
    rw [hm]
    field_simp
  rw [hdiv, roundEven_intCast, ← hm]

theorem fl_nat4 : fl 4 = 4 :=
  fl_eq_self 4 2 (4 * 2 ^ 50) (by norm_num) (by norm_num) (by norm_num) (by norm_num)
    (by push_cast; norm_num)

theorem fl_nat5 : fl 5 = 5 :=
  fl_eq_self 5 2 (5 * 2 ^ 50) (by norm_num) (by norm_num) (by norm_num) (by norm_num)
    (by push_cast; norm_num)

theorem fl_nat8 : fl 8 = 8 :=
  fl_eq_self 8 3 (8 * 2 ^ 49) (by norm_num) (by norm_num) (by norm_num) (by norm_num)
    (by push_cast; norm_num)

theorem fl_nat10 : fl 10 = 10 :=
  fl_eq_self 10 3 (10 * 2 ^ 49) (by norm_num) (by norm_num) (by norm_num) (by norm_num)
    (by push_cast; norm_num)

theorem fl_nat23 : fl 23 = 23 :=
  fl_eq_self 23 4 (23 * 2 ^ 48) (by norm_num) (by norm_num) (by norm_num) (by norm_num)
    (by push_cast; norm_num)

theorem fl_nat40 : fl 40 = 40 :=
  fl_eq_self 40 5 (40 * 2 ^ 47) (by norm_num) (by norm_num) (by norm_num) (by norm_num)
    (by push_cast; norm_num)

theorem fl_nat50 : fl 50 = 50 :=
  fl_eq_self 50 5 (50 * 2 ^ 47) (by norm_num) (by norm_num) (by norm_num) (by norm_num)
    (by push_cast; norm_num)

theorem fl_nat51 : fl 51 = 51 :=
  fl_eq_self 51 5 (51 * 2 ^ 47) (by norm_num) (by norm_num) (by norm_num) (by norm_num)
    (by push_cast; norm_num)

theorem fl_nat64 : fl 64 = 64 :=
  fl_eq_self 64 6 (64 * 2 ^ 46) (by norm_num) (by norm_num) (by norm_num) (by norm_num)
    (by push_cast; norm_num)

theorem fl_half : fl (1/2) = 1/2 :=
  fl_eq_self (1/2) (-1) (2 ^ 52) (by norm_num) (by norm_num) (by norm_num) (by norm_num)
    (by push_cast; norm_num)

theorem fl_dyadic_51_64 : fl (51/64) = 51/64 :=
  fl_eq_self (51/64) (-1) (51 * 2 ^ 47) (by norm_num) (by norm_num) (by norm_num)
    (by norm_num) (by push_cast; norm_num)

theorem fl_dyadic_1275_16 : fl (1275/16) = 1275/16 :=
  fl_eq_self (1275/16) 6 (1275 * 2 ^ 42) (by norm_num) (by norm_num) (by norm_num)
    (by norm_num) (by push_cast; norm_num)

/-- The double nearest `8 / 10` is `0.8 + 2^-54 + ...`, one ulp above. -/
theorem fl_div_4_5 : fl (4/5) = 3602879701896397 / 4503599627370496 := by
  rw [fl_eq (4/5) (-1) (by norm_num) (by norm_num) (by norm_num) (by norm_num)]
  rw [show ((4/5 : ℚ)) / 2 ^ ((-1:ℤ) - 52) = 7205759403792793 + 3/5 by norm_num]
  have hfl : ⌊(7205759403792793 + 3/5 : ℚ)⌋ = 7205759403792793 := by norm_num
  rw [roundEven_of_half_lt_fract _ (by rw [Int.fract, hfl]; norm_num), hfl]
  norm_num

theorem fl_div_2_5 : fl (2/5) = 3602879701896397 / 9007199254740992 := by
  rw [fl_eq (2/5) (-2) (by norm_num) (by norm_num) (by norm_num) (by norm_num)]
  rw [show ((2/5 : ℚ)) / 2 ^ ((-2:ℤ) - 52) = 7205759403792793 + 3/5 by norm_num]
  have hfl : ⌊(7205759403792793 + 3/5 : ℚ)⌋ = 7205759403792793 := by norm_num
  rw [roundEven_of_half_lt_fract _ (by rw [Int.fract, hfl]; norm_num), hfl]
  norm_num

/-- The double nearest `23 / 40` is one ulp *below* `0.575`. -/
theorem fl_div_23_40 : fl (23/40) = 5179139571476070 / 9007199254740992 := by
  rw [fl_eq (23/40) (-1) (by norm_num) (by norm_num) (by norm_num) (by norm_num)]
  rw [show ((23/40 : ℚ)) / 2 ^ ((-1:ℤ) - 52) = 5179139571476070 + 2/5 by norm_num]
  have hfl : ⌊(5179139571476070 + 2/5 : ℚ)⌋ = 5179139571476070 := by norm_num
  rw [roundEven_of_fract_lt_half _ (by rw [Int.fract, hfl]; norm_num), hfl]
  norm_num

/-- `double(0.8) * 100` rounds back to exactly `80`. -/
theorem fl_prod_80 : fl (3602879701896397 / 4503599627370496 * 100) = 80 := by
  rw [show (3602879701896397 / 4503599627370496 * 100 : ℚ) =
      360287970189639700 / 4503599627370496 by norm_num]
  rw [fl_eq _ 6 (by norm_num) (by norm_num) (by norm_num) (by norm_num)]
  rw [show ((360287970189639700 / 4503599627370496 : ℚ)) / 2 ^ ((6:ℤ) - 52) =
      5629499534213120 + 5/16 by norm_num]
  have hfl : ⌊(5629499534213120 + 5/16 : ℚ)⌋ = 5629499534213120 := by norm_num
  rw [roundEven_of_fract_lt_half _ (by rw [Int.fract, hfl]; norm_num), hfl]
  norm_num

/-- `double(0.4) * 100` rounds back to exactly `40`. -/
theorem fl_prod_40 : fl (3602879701896397 / 9007199254740992 * 100) = 40 := by
  rw [show (3602879701896397 / 9007199254740992 * 100 : ℚ) =
      360287970189639700 / 9007199254740992 by norm_num]
  rw [fl_eq _ 5 (by norm_num) (by norm_num) (by norm_num) (by norm_num)]
  rw [show ((360287970189639700 / 9007199254740992 : ℚ)) / 2 ^ ((5:ℤ) - 52) =
      5629499534213120 + 5/16 by norm_num]
  have hfl : ⌊(5629499534213120 + 5/16 : ℚ)⌋ = 5629499534213120 := by norm_num
  rw [roundEven_of_fract_lt_half _ (by rw [Int.fract, hfl]; norm_num), hfl]
  norm_num

/-- `double(0.575) * 100` is `57.49999999999999…`, strictly below `57.5`. -/
theorem fl_prod_57 : fl (5179139571476070 / 9007199254740992 * 100) =
    8092405580431359 / 140737488355328 := by
  rw [show (5179139571476070 / 9007199254740992 * 100 : ℚ) =
      517913957147607000 / 9007199254740992 by norm_num]
  rw [fl_eq _ 5 (by norm_num) (by norm_num) (by norm_num) (by norm_num)]
  rw [show ((517913957147607000 / 9007199254740992 : ℚ)) / 2 ^ ((5:ℤ) - 52) =
      8092405580431359 + 3/8 by norm_num]
  have hfl : ⌊(8092405580431359 + 3/8 : ℚ)⌋ = 8092405580431359 := by norm_num
  rw [roundEven_of_fract_lt_half _ (by rw [Int.fract, hfl]; norm_num), hfl]
  norm_num

theorem dblPercent_8_10 : dblPercent 8 10 = 80 := by
  unfold dblPercent
  push_cast
  rw [fl_nat8, fl_nat10, show (8:ℚ)/10 = 4/5 by norm_num, fl_div_4_5, fl_prod_80]

theorem dblPercent_5_10 : dblPercent 5 10 = 50 := by
  unfold dblPercent
  push_cast
  rw [fl_nat5, fl_nat10, show (5:ℚ)/10 = 1/2 by norm_num, fl_half,
    show (1/2 : ℚ) * 100 = 50 by norm_num, fl_nat50]

theorem dblPercent_4_10 : dblPercent 4 10 = 40 := by
  unfold dblPercent
  push_cast
  rw [fl_nat4, fl_nat10, show (4:ℚ)/10 = 2/5 by norm_num, fl_div_2_5, fl_prod_40]

theorem dblPercent_23_40 : dblPercent 23 40 = 8092405580431359 / 140737488355328 := by
  unfold dblPercent
  push_cast
  rw [fl_nat23, fl_nat40, show (23:ℚ)/40 = 23/40 by norm_num, fl_div_23_40, fl_prod_57]

theorem dblPercent_51_64 : dblPercent 51 64 = 1275/16 := by
  unfold dblPercent
  push_cast
  rw [fl_nat51, fl_nat64, show (51:ℚ)/64 = 51/64 by norm_num, fl_dyadic_51_64,
    show (51/64 : ℚ) * 100 = 1275/16 by norm_num, fl_dyadic_1275_16]

/-- The training-level computation depends only on the completed and
total counts, through the double pipeline. -/
theorem computeTrainingLevel_counts (modules : List TrainingRecord) :
    computeTrainingLevel modules =
      specTrainingLevelDbl (countCompleted modules) modules.length := by
  unfold computeTrainingLevel specTrainingLevelDbl specLevelDbl specProgressDbl
    dblPercent countCompleted
  rcases Nat.eq_zero_or_pos modules.length with h | h
  · simp [h]
    norm_num
  · have hne : modules.length ≠ 0 := Nat.pos_iff_ne_zero.mp h
    simp [h, hne]

theorem ctl_empty : computeTrainingLevel [] = ⟨"Beginner", 0⟩ := by
  rw [computeTrainingLevel_counts]
  simp [specTrainingLevelDbl, specLevelDbl, specProgressDbl, countCompleted]

theorem ctl_8_10 : computeTrainingLevel (recsCase 8 2) = ⟨"Expert", 80⟩ := by
  rw [computeTrainingLevel_counts,
    show countCompleted (recsCase 8 2) = 8 by decide,
    show (recsCase 8 2).length = 10 by decide]
  rw [specTrainingLevelDbl, specLevelDbl, specProgressDbl, dblPercent_8_10]
  norm_num [round_eq]

theorem ctl_5_10 : computeTrainingLevel (recsCase 5 5) = ⟨"Intermediate", 50⟩ := by
  rw [computeTrainingLevel_counts,
    show countCompleted (recsCase 5 5) = 5 by decide,
    show (recsCase 5 5).length = 10 by decide]
  rw [specTrainingLevelDbl, specLevelDbl, specProgressDbl, dblPercent_5_10]
  norm_num [round_eq]

theorem ctl_4_10 : computeTrainingLevel (recsCase 4 6) = ⟨"Beginner", 40⟩ := by
  rw [computeTrainingLevel_counts,
    show countCompleted (recsCase 4 6) = 4 by decide,
    show (recsCase 4 6).length = 10 by decide]
  rw [specTrainingLevelDbl, specLevelDbl, specProgressDbl, dblPercent_4_10]
  norm_num [round_eq]

/-- 23 of 40: the double percentage is just below 57.5, so the program
stores 57 (the exactly rounded percentage would be 58). -/
theorem ctl_23_40 : computeTrainingLevel (recsCase 23 17) = ⟨"Intermediate", 57⟩ := by
  rw [computeTrainingLevel_counts,
    show countCompleted (recsCase 23 17) = 23 by decide,
    show (recsCase 23 17).length = 40 by decide]
  rw [specTrainingLevelDbl, specLevelDbl, specProgressDbl, dblPercent_23_40]
  norm_num [round_eq]

/-- 51 of 64: the double percentage is exactly 79.6875, so the stored
progress is 80 while the level is "Intermediate". -/
theorem ctl_51_64 : computeTrainingLevel (recsCase 51 13) = ⟨"Intermediate", 80⟩ := by
  rw [computeTrainingLevel_counts,
    show countCompleted (recsCase 51 13) = 51 by decide,
    show (recsCase 51 13).length = 64 by decide]
  rw [specTrainingLevelDbl, specLevelDbl, specProgressDbl, dblPercent_51_64]
  norm_num [round_eq]

/-! ## Characterizations of the hub operations -/

theorem unregisterUser_users_get (s : HubState) (uid : String) (now : ℕ) (u : String) :
    mapGet (unregisterUser s uid now).1.users u =
      if uid = u then
        (mapGet s.users uid).map (fun v => { v with status := .offline, lastSeen := some now })
      else mapGet s.users u := by
  cases hg : mapGet s.users uid with
  | some v =>
    by_cases h : uid = u
    · subst h
      simp [unregisterUser, hg, mapGet_mapSet]
    · simp [unregisterUser, hg, mapGet_mapSet, h]
  | none =>
    by_cases h : uid = u
    · subst h
      simp [unregisterUser, hg]
    · simp [unregisterUser, hg, h]

theorem unregisterUser_clients (s : HubState) (uid : String) (now : ℕ) :
    (unregisterUser s uid now).1.clients = mapDel s.clients uid := by
  cases hg : mapGet s.users uid <;> simp [unregisterUser, hg]

theorem onStatus_users_get (s : HubState) (uid : String) (st : Status) (now : ℕ) (u : String) :
    mapGet (onStatus s uid st now).1.users u =
      if uid = u then
        (mapGet s.users uid).map (fun v => { v with status := st, lastSeen := some now })
      else mapGet s.users u := by
  cases hg : mapGet s.users uid with
  | some v =>
    by_cases h : uid = u
    · subst h
      simp [onStatus, hg, mapGet_mapSet]
    · simp [onStatus, hg, mapGet_mapSet, h]
  | none =>
    by_cases h : uid = u
    · subst h
      simp [onStatus, hg]
    · simp [onStatus, hg, h]

theorem onStatus_clients (s : HubState) (uid : String) (st : Status) (now : ℕ) :
    (onStatus s uid st now).1.clients = s.clients := by
  cases hg : mapGet s.users uid <;> simp [onStatus, hg]

theorem broadcastTrainingLevel_users_get (s : HubState) (uid : String)
    (f : Except Unit (List TrainingRecord)) (u : String) :
    mapGet (broadcastTrainingLevel s uid f).1.users u =
      if uid = u then (mapGet s.users uid).map (withFetch f)
      else mapGet s.users u := by
  cases f with
  | error e =>
    by_cases h : uid = u
    · subst h
      simp only [broadcastTrainingLevel, if_pos rfl]
      cases mapGet s.users uid <;> simp [withFetch]
    · simp [broadcastTrainingLevel, withFetch, h]
  | ok modules =>
    cases hg : mapGet s.users uid with
    | some v =>
      by_cases h : uid = u
      · subst h
        simp [broadcastTrainingLevel, hg, mapGet_mapSet, withFetch]
      · simp [broadcastTrainingLevel, hg, mapGet_mapSet, withFetch, h]
    | none =>
      by_cases h : uid = u
      · subst h
        simp [broadcastTrainingLevel, hg]
      · simp [broadcastTrainingLevel, hg, h]

theorem broadcastTrainingLevel_clients (s : HubState) (uid : String)
    (f : Except Unit (List TrainingRecord)) :
    (broadcastTrainingLevel s uid f).1.clients = s.clients := by
  cases f with
  | error e => rfl
  | ok modules => cases hg : mapGet s.users uid <;> simp [broadcastTrainingLevel, hg]

theorem registerUser_users_get (s : HubState) (uid : String) (now : ℕ) (u : String) :
    mapGet (registerUser s uid now).1.users u =
      if uid = u then
        some { id := uid, name := defaultName uid, avatar := none, status := .online,
               lastSeen := some now, socketId := (mapGet s.clients uid).getD "",
               trainingLevel := none }
      else mapGet s.users u := by
  simp [registerUser, mapGet_mapSet]

theorem registerUser_clients (s : HubState) (uid : String) (now : ℕ) :
    (registerUser s uid now).1.clients = s.clients := rfl

theorem onJoin_users_get (s : HubState) (uid : String) (suppliedName : Option String)
    (f : Except Unit (List TrainingRecord)) (now : ℕ) (u : String) :
    mapGet (onJoin s uid suppliedName f now).1.users u =
      if uid = u then
        some (withFetch f (joinBase s uid (suppliedName.getD (defaultName uid)) now))
      else mapGet s.users u := by
  cases hg : mapGet s.users uid with
  | some v =>
    simp only [onJoin, hg]
    rw [broadcastTrainingLevel_users_get]
    by_cases h : uid = u
    · subst h
      simp [joinBase, hg, mapGet_mapSet]
    · simp [joinBase, hg, mapGet_mapSet, h]
  | none =>
    simp only [onJoin, hg]
    rw [broadcastTrainingLevel_users_get]
    by_cases h : uid = u
    · subst h
      simp [joinBase, hg, registerUser_users_get]
    · simp [joinBase, hg, registerUser_users_get, h]

theorem onJoin_clients (s : HubState) (uid : String) (suppliedName : Option String)
    (f : Except Unit (List TrainingRecord)) (now : ℕ) :
    (onJoin s uid suppliedName f now).1.clients = s.clients := by
  cases hg : mapGet s.users uid <;>
    simp [onJoin, hg, broadcastTrainingLevel_clients, registerUser_clients]

theorem onConnect_users (s : HubState) (uid sid : String) :
    (onConnect s uid sid).users = s.users := by
  by_cases h : uid = "" <;> simp [onConnect, h]

theorem onConnect_clients_get (s : HubState) (uid sid u : String) :
    mapGet (onConnect s uid sid).clients u =
      if uid ≠ "" ∧ uid = u then some sid else mapGet s.clients u := by
  by_cases h : uid = ""
  · simp [onConnect, h]
  · by_cases hu : uid = u
    · subst hu
      simp [onConnect, h, mapGet_mapSet]
    · simp [onConnect, h, hu, mapGet_mapSet]

theorem onTransportError_users_get (s : HubState) (uid sid : String) (now : ℕ) (u : String) :
    mapGet (onTransportError s uid sid now).1.users u =
      if mapGet s.clients uid = some sid then
        mapGet (unregisterUser s uid now).1.users u
      else mapGet s.users u := by
  by_cases h : mapGet s.clients uid = some sid <;> simp [onTransportError, h]

theorem onTransportError_clients (s : HubState) (uid sid : String) (now : ℕ) :
    (onTransportError s uid sid now).1.clients =
      if mapGet s.clients uid = some sid then mapDel s.clients uid else s.clients := by
  by_cases h : mapGet s.clients uid = some sid <;>
    simp [onTransportError, h, unregisterUser_clients]

theorem withFetch_status (f : Except Unit (List TrainingRecord)) (v : User) :
    (withFetch f v).status = v.status := by
  cases f <;> rfl

theorem joinBase_status (s : HubState) (uid n : String) (now : ℕ) :
    (joinBase s uid n now).status = .online := by
  cases hg : mapGet s.users uid <;> simp [joinBase, hg]

/-! ## Preservation of structural well-formedness -/

theorem KeysOK_unregisterUser (s : HubState) (uid : String) (now : ℕ)
    (hK : KeysOK s) : KeysOK (unregisterUser s uid now).1 := by
  cases hg : mapGet s.users uid with
  | none =>
    simpa [unregisterUser, hg, KeysOK] using hK
  | some v =>
    have hid : v.id = uid := hK.2 (uid, v) (mem_of_mapGet_eq_some hg)
    simp only [unregisterUser, hg, KeysOK]
    exact ⟨nodup_keys_mapSet hK.1, forall_mapSet hK.2 hid⟩

theorem KeysOK_onStatus (s : HubState) (uid : String) (st : Status) (now : ℕ)
    (hK : KeysOK s) : KeysOK (onStatus s uid st now).1 := by
  cases hg : mapGet s.users uid with
  | none => simpa [onStatus, hg, KeysOK] using hK
  | some v =>
    have hid : v.id = uid := hK.2 (uid, v) (mem_of_mapGet_eq_some hg)
    simp only [onStatus, hg, KeysOK]
    exact ⟨nodup_keys_mapSet hK.1, forall_mapSet hK.2 hid⟩

theorem KeysOK_broadcastTrainingLevel (s : HubState) (uid : String)
    (f : Except Unit (List TrainingRecord)) (hK : KeysOK s) :
    KeysOK (broadcastTrainingLevel s uid f).1 := by
  cases f with
  | error e => exact hK
  | ok modules =>
    cases hg : mapGet s.users uid with
    | none => simpa [broadcastTrainingLevel, hg, KeysOK] using hK
    | some v =>
      have hid : v.id = uid := hK.2 (uid, v) (mem_of_mapGet_eq_some hg)
      simp only [broadcastTrainingLevel, hg, KeysOK]
      exact ⟨nodup_keys_mapSet hK.1, forall_mapSet hK.2 hid⟩

theorem KeysOK_registerUser (s : HubState) (uid : String) (now : ℕ)
    (hK : KeysOK s) : KeysOK (registerUser s uid now).1 := by
  simp only [registerUser, KeysOK]
  exact ⟨nodup_keys_mapSet hK.1, forall_mapSet hK.2 rfl⟩

theorem KeysOK_onJoin (s : HubState) (uid : String) (suppliedName : Option String)
    (f : Except Unit (List TrainingRecord)) (now : ℕ) (hK : KeysOK s) :
    KeysOK (onJoin s uid suppliedName f now).1 := by
  cases hg : mapGet s.users uid with
  | some v =>
    have hid : v.id = uid := hK.2 (uid, v) (mem_of_mapGet_eq_some hg)
    simp only [onJoin, hg]
    refine KeysOK_broadcastTrainingLevel _ _ _ ?_
    exact ⟨nodup_keys_mapSet hK.1, forall_mapSet hK.2 hid⟩
  | none =>
    simp only [onJoin, hg]
    exact KeysOK_broadcastTrainingLevel _ _ _ (KeysOK_registerUser s uid now hK)

theorem KeysOK_onConnect (s : HubState) (uid sid : String) (hK : KeysOK s) :
    KeysOK (onConnect s uid sid) := by
  have h := onConnect_users s uid sid
  unfold KeysOK at hK ⊢
  rw [h]
  exact hK

theorem KeysOK_onTransportError (s : HubState) (uid sid : String) (now : ℕ)
    (hK : KeysOK s) : KeysOK (onTransportError s uid sid now).1 := by
  by_cases h : mapGet s.clients uid = some sid
  · simp only [onTransportError, if_pos h]
    exact KeysOK_unregisterUser s uid now hK
  · simpa [onTransportError, h] using hK

theorem KeysOK_step (s : HubState) (e : Event) (hK : KeysOK s) : KeysOK (step s e) := by
  cases e with
  | connect uid sid => exact KeysOK_onConnect s uid sid hK
  | join uid nm f now => exact KeysOK_onJoin s uid nm f now hK
  | status uid st now => exact KeysOK_onStatus s uid st now hK
  | disconnect uid now => exact KeysOK_unregisterUser s uid now hK
  | transportError uid sid now => exact KeysOK_onTransportError s uid sid now hK

/-! ## Simulation between the code state and the amended spec view -/

theorem Inv_init : Inv initState ⟨fun _ => none, fun _ => false, fun _ => false⟩ := by
  refine ⟨⟨by simp [initState], by simp [initState]⟩, ?_, ?_, ?_⟩ <;>
    intro u <;> simp [initState, mapGet]

theorem Inv_unregisterUser {s : HubState} {st : SpecState} (h : Inv s st)
    (uid : String) (now : ℕ) :
    Inv (unregisterUser s uid now).1
      { st with handles := fun x => if x = uid then none else st.handles x,
                active := fun x => if x = uid then false else st.active x } := by
  obtain ⟨hK, hH, hE, hA⟩ := h
  refine ⟨KeysOK_unregisterUser s uid now hK, ?_, ?_, ?_⟩
  · intro u
    rw [unregisterUser_clients, mapGet_mapDel]
    by_cases hu : uid = u
    · subst hu
      simp
    · have hu' : ¬u = uid := fun hx => hu hx.symm
      simp [hu, hu', hH u]
  · intro u
    rw [unregisterUser_users_get]
    by_cases hu : uid = u
    · subst hu
      rw [← hE uid]
      cases mapGet s.users uid <;> simp
    · simp [hu, hE u]
  · intro u
    rw [unregisterUser_users_get]
    by_cases hu : uid = u
    · subst hu
      cases mapGet s.users uid <;> simp
    · have hu' : ¬u = uid := fun hx => hu hx.symm
      simpa [hu, hu'] using hA u

theorem Inv_step {s : HubState} {st : SpecState} (h : Inv s st) (e : Event) :
    Inv (step s e) (specStep st e) := by
  obtain ⟨hK, hH, hE, hA⟩ := h
  cases e with
  | connect uid sid =>
    by_cases hid : uid = ""
    · simp only [step, specStep, onConnect, if_pos hid]
      exact ⟨hK, hH, hE, hA⟩
    · simp only [step, specStep, if_neg hid]
      refine ⟨KeysOK_onConnect s uid sid hK, ?_, ?_, ?_⟩
      · intro u
        rw [onConnect_clients_get]
        by_cases hu : uid = u
        · subst hu
          simp [hid]
        · have hu' : ¬u = uid := fun hx => hu hx.symm
          simp [hu, hu', hH u]
      · intro u
        rw [onConnect_users]
        exact hE u
      · intro u
        rw [onConnect_users]
        exact hA u
  | join uid nm f now =>
    simp only [step, specStep]
    refine ⟨KeysOK_onJoin s uid nm f now hK, ?_, ?_, ?_⟩
    · intro u
      show mapGet (onJoin s uid nm f now).1.clients u = _
      rw [onJoin_clients]
      exact hH u
    · intro u
      rw [onJoin_users_get]
      by_cases hu : uid = u
      · subst hu
        simp
      · have hu' : ¬u = uid := fun hx => hu hx.symm
        simp [hu, hu', hE u]
    · intro u
      rw [onJoin_users_get]
      by_cases hu : uid = u
      · subst hu
        simp [withFetch_status, joinBase_status]
      · have hu' : ¬u = uid := fun hx => hu hx.symm
        simp only [if_neg hu, hu', if_false]
        rw [← hA u]
  | status uid st₀ now =>
    cases hgm : mapGet s.users uid with
    | none =>
      have hent : st.entries uid = false := by rw [← hE uid, hgm]; rfl
      simp only [step, specStep, onStatus, hgm, hent, Bool.false_eq_true, if_false]
      exact ⟨hK, hH, hE, hA⟩
    | some v =>
      have hent : st.entries uid = true := by rw [← hE uid, hgm]; rfl
      simp only [step, specStep, hent, if_true]
      by_cases ho : st₀ = Status.online
      · simp only [if_pos ho]
        refine ⟨KeysOK_onStatus s uid st₀ now hK, ?_, ?_, ?_⟩
        · intro u
          rw [onStatus_clients]
          exact hH u
        · intro u
          rw [onStatus_users_get]
          by_cases hu : uid = u
          · subst hu
            simp [hgm, hent]
          · simp [hu, hE u]
        · intro u
          rw [onStatus_users_get]
          by_cases hu : uid = u
          · subst hu
            simp [hgm, ho]
          · have hu' : ¬u = uid := fun hx => hu hx.symm
            simp only [if_neg hu, hu', if_false]
            rw [← hA u]
      · simp only [if_neg ho]
        refine ⟨KeysOK_onStatus s uid st₀ now hK, ?_, ?_, ?_⟩
        · intro u
          rw [onStatus_clients]
          exact hH u
        · intro u
          rw [onStatus_users_get]
          by_cases hu : uid = u
          · subst hu
            simp [hgm, hent]
          · simp [hu, hE u]
        · intro u
          rw [onStatus_users_get]
          by_cases hu : uid = u
          · subst hu
            simp [hgm, ho]
          · have hu' : ¬u = uid := fun hx => hu hx.symm
            simp only [if_neg hu, hu', if_false]
            rw [← hA u]
  | disconnect uid now =>
    simp only [step, specStep, onDisconnect]
    exact Inv_unregisterUser ⟨hK, hH, hE, hA⟩ uid now
  | transportError uid sid now =>
    by_cases hc : mapGet s.clients uid = some sid
    · have hc' : st.handles uid = some sid := by rw [← hH uid]; exact hc
      simp only [step, specStep, onTransportError, if_pos hc, hc', if_true]
      exact Inv_unregisterUser ⟨hK, hH, hE, hA⟩ uid now
    · have hc' : ¬st.handles uid = some sid := fun hx => hc (by rw [hH uid]; exact hx)
      simp only [step, specStep, onTransportError, if_neg hc, if_neg hc']
      exact ⟨hK, hH, hE, hA⟩

theorem Inv_foldl {s : HubState} {st : SpecState} (h : Inv s st) (es : List Event) :
    Inv (es.foldl step s) (es.foldl specStep st) := by
  induction es generalizing s st with
  | nil => exact h
  | cons e es ih => exact ih (Inv_step h e)

theorem Inv_run (es : List Event) : Inv (run es) (specRun es) :=
  Inv_foldl Inv_init es

theorem withFetch_name (f : Except Unit (List TrainingRecord)) (v : User) :
    (withFetch f v).name = v.name := by
  cases f <;> rfl

theorem withFetch_avatar (f : Except Unit (List TrainingRecord)) (v : User) :
    (withFetch f v).avatar = v.avatar := by
  cases f <;> rfl

/-! ## The claims -/

/-- C1 counterexample: on the event sequence consisting of a single
status-change-to-online event for `u1` (who has no presence entry), the
code treats the event as a no-op, so `getActiveUsers` does not return
`u1`; the claim's event characterization counts that event as the most
recent lifecycle event setting `u1` online. -/
theorem status_without_entry_not_active :
    ¬("u1" ∈ getActiveUsers (run [.status "u1" .online 0]) ↔
      (specRunClaimed [.status "u1" .online 0]).active "u1" = true) := by
  decide

/-- C1 (amended): for every sequence of connect / join / status-change /
disconnect / transport-error events from the empty state,
`getActiveUsers()` returns exactly the user ids whose most recent
*effective* lifecycle event set them online — a join, or a status change
to online for a user that already has a presence entry (a status event
for a user with no entry is a no-op) — with no subsequent disconnect,
status change away from online, or transport error on the current
handle.  `getActiveUsers` is a pure function of the state, so the call
mutates neither map. -/
theorem getActiveUsers_event_characterization (es : List Event) (u : String) :
    u ∈ getActiveUsers (run es) ↔ (specRun es).active u = true :=
  (mem_getActiveUsers _ (Inv_run es).1 u).trans ((Inv_run es).2.2.2 u)

/-- C2 counterexample: with 51 completed of 64 records the exact
percentage is 79.6875, which rounds to a stored progress of 80, yet the
code labels the level `"Intermediate"`; the thresholds applied to the
rounded stored percentage (as the claim states) would give `"Expert"`. -/
theorem level_thresholds_on_rounded_progress_false :
    computeTrainingLevel (recsCase 51 13) = ⟨"Intermediate", 80⟩ ∧
    specLevelClaimed (countCompleted (recsCase 51 13)) (recsCase 51 13).length =
      "Expert" :=
  ⟨ctl_51_64, by decide⟩

/-- C2 (amended): for every fetched record set, `broadcastTrainingLevel`
stores (when the user has an entry) and emits (to the user's recorded
connection) the summary the program's IEEE binary64 arithmetic produces:
progress is `Math.round` of the double value of
`(completed / total) * 100` (0 when there are no records) — which can
differ from the exactly rounded percentage: 23 completed of 40 stores 57
although the exact percentage 57.5 rounds to 58 — and the level label
comes from the 80 / 50 thresholds applied to the *unrounded* double
value — which can disagree with the thresholds applied to the rounded
stored progress (51 of 64 stores 80 with level "Intermediate"). -/
theorem broadcastTrainingLevel_stores_and_emits :
    (∀ (s : HubState) (userId : String) (modules : List TrainingRecord),
      (broadcastTrainingLevel s userId (.ok modules)).2 =
        [.trainingLevel ((mapGet s.clients userId).getD "")
          (specTrainingLevelDbl (countCompleted modules) modules.length)] ∧
      mapGet (broadcastTrainingLevel s userId (.ok modules)).1.users userId =
        (mapGet s.users userId).map (fun v =>
          { v with trainingLevel := some (specTrainingLevelDbl (countCompleted modules) modules.length) })) ∧
    computeTrainingLevel (recsCase 23 17) = ⟨"Intermediate", 57⟩ ∧
    specProgress 23 40 = 58 := by
  refine ⟨fun s userId modules => ⟨?_, ?_⟩, ctl_23_40, by decide⟩
  · cases hg : mapGet s.users userId <;>
      simp [broadcastTrainingLevel, hg, computeTrainingLevel_counts]
  · rw [broadcastTrainingLevel_users_get]
    cases mapGet s.users userId <;>
      simp [withFetch, computeTrainingLevel_counts]

/-- C3: `broadcastTrainingLevel` on concrete inputs: zero records emits
`{Beginner, 0}`; 8 completed of 10 emits `{Expert, 80}`; 5 of 10 emits
`{Intermediate, 50}`; 4 of 10 emits `{Beginner, 40}`. -/
theorem broadcastTrainingLevel_concrete_cases :
    (broadcastTrainingLevel initState "u1" (.ok [])).2 =
      [.trainingLevel "" ⟨"Beginner", 0⟩] ∧
    (broadcastTrainingLevel initState "u1" (.ok (recsCase 8 2))).2 =
      [.trainingLevel "" ⟨"Expert", 80⟩] ∧
    (broadcastTrainingLevel initState "u1" (.ok (recsCase 5 5))).2 =
      [.trainingLevel "" ⟨"Intermediate", 50⟩] ∧
    (broadcastTrainingLevel initState "u1" (.ok (recsCase 4 6))).2 =
      [.trainingLevel "" ⟨"Beginner", 40⟩] := by
  refine ⟨?_, ?_, ?_, ?_⟩ <;>
    simp [broadcastTrainingLevel, initState, mapGet, ctl_empty, ctl_8_10, ctl_5_10,
      ctl_4_10]

/-- C4 counterexample: a `presence:join` that *creates* the entry ignores
the supplied name: joining as `"alice"` with payload name `"Alice"` on
the empty state stores the synthesized default `"User alic"`. -/
theorem fresh_join_ignores_supplied_name :
    (mapGet (onJoin initState "alice" (some "Alice") (.error ()) 0).1.users
        "alice").map User.name = some "User alic" ∧
    ("User alic" : String) ≠ "Alice" := by
  constructor
  · decide
  · decide

/-- C4 (amended): a `presence:join` sets status online, and the stored
name is the supplied payload name when the user already has an entry
(falling back to the synthesized default when the payload has no name);
when the join creates a new entry the supplied name is ignored and the
synthesized default `"User "` + first 4 characters of the id is always
used. -/
theorem join_name_resolution (s : HubState) (uid : String)
    (suppliedName : Option String) (f : Except Unit (List TrainingRecord)) (now : ℕ) :
    (mapGet (onJoin s uid suppliedName f now).1.users uid).map User.name =
      some (cond (mapGet s.users uid).isSome
        (suppliedName.getD (defaultName uid)) (defaultName uid)) ∧
    (mapGet (onJoin s uid suppliedName f now).1.users uid).map User.status =
      some .online := by
  constructor
  · rw [onJoin_users_get]
    cases hg : mapGet s.users uid <;>
      simp [withFetch_name, joinBase, hg]
  · rw [onJoin_users_get]
    simp [withFetch_status, joinBase_status]

/-- C5: a failing training-records fetch is absorbed:
`broadcastTrainingLevel` returns with the state unchanged and nothing
emitted (no error propagates, the stored summary is left exactly as it
was); a join that hits the failure still leaves the user online, leaves
the user's training summary as it was, and still performs its presence
broadcast. -/
theorem fetch_failure_absorbed (s : HubState) (uid : String)
    (suppliedName : Option String) (now : ℕ) :
    broadcastTrainingLevel s uid (.error ()) = (s, []) ∧
    (mapGet (onJoin s uid suppliedName (.error ()) now).1.users uid).map User.status =
      some .online ∧
    (mapGet (onJoin s uid suppliedName (.error ()) now).1.users uid).bind
        User.trainingLevel =
      (mapGet s.users uid).bind User.trainingLevel ∧
    Emit.onlineUsersUpdate (presencePayload (onJoin s uid suppliedName (.error ()) now).1) ∈
      (onJoin s uid suppliedName (.error ()) now).2 := by
  refine ⟨rfl, ?_, ?_, ?_⟩
  · rw [onJoin_users_get]
    simp [withFetch_status, joinBase_status]
  · rw [onJoin_users_get]
    cases hg : mapGet s.users uid <;>
      simp [withFetch, joinBase, hg]
  · cases hg : mapGet s.users uid <;>
      simp [onJoin, hg, broadcastTrainingLevel]

/-- C6: a transport error on a connection handle that is not the one
currently recorded for the user changes nothing (and emits nothing); a
transport error on the currently recorded handle performs exactly an
unregister. -/
theorem transportError_current_handle_only (s : HubState) (uid sid : String) (now : ℕ) :
    (mapGet s.clients uid ≠ some sid → onTransportError s uid sid now = (s, [])) ∧
    (mapGet s.clients uid = some sid →
      onTransportError s uid sid now = unregisterUser s uid now) := by
  constructor <;> intro h <;> simp [onTransportError, h]

/-- C6 witness: after `u1` joins on socket `s1` and reconnects on socket
`s2`, an error referencing the superseded handle `s1` is ignored and
`u1` stays online, while an error on the current handle `s2` unregisters. -/
theorem transportError_current_handle_only_witness :
    onTransportError demoReconnected "u1" "s1" 7 = (demoReconnected, []) ∧
    onTransportError demoReconnected "u1" "s2" 7 =
      unregisterUser demoReconnected "u1" 7 ∧
    "u1" ∈ getActiveUsers (onTransportError demoReconnected "u1" "s1" 7).1 := by
  refine ⟨(transportError_current_handle_only demoReconnected "u1" "s1" 7).1 (by decide),
          (transportError_current_handle_only demoReconnected "u1" "s2" 7).2 (by decide),
          ?_⟩
  rw [(transportError_current_handle_only demoReconnected "u1" "s1" 7).1 (by decide)]
  decide

/-- C7: the `ONLINE_USERS_UPDATE` payload is a full snapshot — one record
per stored PresenceEntry, offline entries included — and is independent
of the internal connection-handle values: rewriting every entry's
`socketId` arbitrarily leaves the payload unchanged (the payload type
`PublicUser` has no `socketId` field at all). -/
theorem presencePayload_snapshot_independent_of_socketId (s : HubState)
    (f : String → String) :
    (presencePayload s).length = s.users.length ∧
    presencePayload
      { users := s.users.map (fun p => (p.1, { p.2 with socketId := f p.1 })),
        clients := s.clients } = presencePayload s := by
  constructor
  · simp [presencePayload]
  · simp only [presencePayload, List.map_map]
    rfl

/-- C8: `broadcast(userIds, message)` emits the message to exactly the
current connection handle of each listed id that has a live connection
mapping, in list order; ids with no live connection are skipped (the
function is total, no error), and no other connection receives the
message. -/
theorem broadcast_targets_exactly_live_connections (s : HubState)
    (userIds : List String) (message : String) :
    broadcast s userIds message =
      (userIds.filterMap (fun uid => mapGet s.clients uid)).map
        (fun sid => Emit.notify sid message) := by
  induction userIds with
  | nil => rfl
  | cons uid rest ih =>
    cases hg : mapGet s.clients uid <;> simp [broadcast, hg, ih]

/-- C9: `unregisterUser` is idempotent on the observable state: two calls
in a row leave exactly the state a single call leaves — status offline,
connection mapping absent, the PresenceEntry still present exactly when
it was present before (never deleted) — and the second call is an
ordinary total call (no error), including when no entry exists at all. -/
theorem unregisterUser_idempotent (s : HubState) (u : String) (t t' : ℕ) :
    (unregisterUser (unregisterUser s u t).1 u t').1 = (unregisterUser s u t').1 ∧
    mapGet ((unregisterUser (unregisterUser s u t).1 u t').1).clients u = none ∧
    ((mapGet ((unregisterUser (unregisterUser s u t).1 u t').1).users u).isSome =
      (mapGet s.users u).isSome) ∧
    (mapGet ((unregisterUser (unregisterUser s u t).1 u t').1).users u).map
        User.status =
      (mapGet s.users u).map (fun _ => Status.offline) := by
  refine ⟨?_, ?_, ?_, ?_⟩
  · cases hg : mapGet s.users u <;>
      simp [unregisterUser, hg, mapGet_mapSet, mapSet_mapSet, mapDel_mapDel]
  · rw [unregisterUser_clients, mapGet_mapDel]
    simp
  · rw [unregisterUser_users_get, unregisterUser_users_get]
    cases hg : mapGet s.users u <;> simp [hg]
  · rw [unregisterUser_users_get, unregisterUser_users_get]
    cases hg : mapGet s.users u <;> simp [hg]

/-- C10 counterexample: a `presence:join` on an existing entry does not
preserve the stored trainingLevel when the fetch succeeds: `u1`'s stored
summary `{Expert, 100}` is replaced by the freshly computed `{Beginner, 0}`
when the join's fetch returns an empty record set. -/
theorem join_success_replaces_training_summary :
    (mapGet demoRichEntry.users "u1").bind User.trainingLevel =
      some ⟨"Expert", 100⟩ ∧
    (mapGet (onJoin demoRichEntry "u1" none (.ok []) 1).1.users "u1").bind
        User.trainingLevel = some ⟨"Beginner", 0⟩ := by
  constructor
  · decide
  · rw [onJoin_users_get]
    simp [withFetch, ctl_empty]

/-- C10 (amended): `registerUser` replaces the user's PresenceEntry
wholesale — after it, avatar and training summary are absent and the name
is the synthesized default, whatever was stored before; by contrast a
`presence:join` on an existing entry updates in place: it preserves the
stored avatar, preserves the stored trainingLevel when the training
fetch fails, and replaces the trainingLevel with the freshly computed
summary (keeping one present) when the fetch succeeds. -/
theorem registerUser_wholesale_join_in_place (s : HubState) (uid : String)
    (suppliedName : Option String) (now : ℕ) (modules : List TrainingRecord) :
    (mapGet (registerUser s uid now).1.users uid =
      some { id := uid, name := defaultName uid, avatar := none, status := .online,
             lastSeen := some now, socketId := (mapGet s.clients uid).getD "",
             trainingLevel := none }) ∧
    (∀ v, mapGet s.users uid = some v →
      (mapGet (onJoin s uid suppliedName (.error ()) now).1.users uid).map
          User.avatar = some v.avatar ∧
      (mapGet (onJoin s uid suppliedName (.error ()) now).1.users uid).map
          User.trainingLevel = some v.trainingLevel) ∧
    (∀ v, mapGet s.users uid = some v →
      (mapGet (onJoin s uid suppliedName (.ok modules) now).1.users uid).map
          User.avatar = some v.avatar ∧
      (mapGet (onJoin s uid suppliedName (.ok modules) now).1.users uid).map
          User.trainingLevel = some (some (computeTrainingLevel modules))) := by
  refine ⟨?_, ?_, ?_⟩
  · rw [registerUser_users_get]
    simp
  · intro v hv
    simp only [onJoin_users_get]
    simp [withFetch, joinBase, hv]
  · intro v hv
    simp only [onJoin_users_get]
    simp [withFetch, joinBase, hv]

/-- C10 witness: the amended statement at the concrete rich entry
(custom name, avatar `a.png`, summary `{Expert, 100}`): `registerUser`
resets everything, a failed-fetch join keeps avatar and summary, a
successful-fetch join keeps the avatar and recomputes the summary. -/
theorem registerUser_wholesale_join_in_place_witness :
    (mapGet (registerUser demoRichEntry "u1" 9).1.users "u1" =
      some { id := "u1", name := defaultName "u1", avatar := none, status := .online,
             lastSeen := some 9, socketId := "s1", trainingLevel := none }) ∧
    (mapGet (onJoin demoRichEntry "u1" none (.error ()) 9).1.users "u1").map
        User.avatar = some (some "a.png") ∧
    (mapGet (onJoin demoRichEntry "u1" none (.error ()) 9).1.users "u1").map
        User.trainingLevel = some (some ⟨"Expert", 100⟩) ∧
    (mapGet (onJoin demoRichEntry "u1" none (.ok (recsCase 0 0)) 9).1.users "u1").map
        User.avatar = some (some "a.png") := by
  have h := registerUser_wholesale_join_in_place demoRichEntry "u1" none 9 (recsCase 0 0)
  have hv : mapGet demoRichEntry.users "u1" = some demoRichUser := by decide
  refine ⟨?_, (h.2.1 demoRichUser hv).1, ?_, (h.2.2 demoRichUser hv).1⟩
  · have h1 := h.1
    rw [show (mapGet demoRichEntry.clients "u1").getD "" = "s1" from by decide] at h1
    exact h1
  · have h2 := (h.2.1 demoRichUser hv).2
    rw [show demoRichUser.trainingLevel = some ⟨"Expert", 100⟩ from rfl] at h2
    exact h2

end GymHub
